import Mathlib

/-!
Shallow embedding of the json-logic-py evaluator (src/json_logic/__init__.py)
and proofs about it.

Python runtime values that can appear as rules, data contexts, or results are
modelled by the inductive type `Py`.  Python floats are idealised as exact
rationals (`Rat`); float literals such as `1e-9` are read as the rationals they
denote, and the shortest-round-trip decimal repr of floats is approximated by
`floatStr`.  Python exceptions are modelled by the `PyError` type, with one
constructor per exception class observed in the source (`ValueError` raised
with the message `Unknown variable: ...` and the one raised with
`Unrecognized operation ...` get their own constructors so that error kinds
can be told apart in theorems).
-/

namespace JsonLogic

/-- A Python/JSON value: None, bool, int, float, str, list, or a string-keyed
dict.  Rules, data contexts and evaluation results all live in this type,
exactly as in the dynamically-typed source. -/
inductive Py where
  | none
  | bool (b : Bool)
  | int (n : Int)
  | float (x : Rat)
  | str (s : String)
  | list (xs : List Py)
  | dict (kvs : List (String × Py))
deriving Repr

/-- Python exception kinds reachable from the evaluator. -/
inductive PyError where
  | keyError
  | indexError
  | typeError
  | valueError
  | zeroDivisionError
  | unknownVariable (name : String)
  | unrecognizedOperator (op : String)
deriving Repr, DecidableEq

/-- The runtime type tag, as compared by `type(a) != type(b)` in the source. -/
inductive PyTy where
  | noneTy
  | boolTy
  | intTy
  | floatTy
  | strTy
  | listTy
  | dictTy
deriving Repr, DecidableEq

def typeOf : Py → PyTy
  | .none => .noneTy
  | .bool _ => .boolTy
  | .int _ => .intTy
  | .float _ => .floatTy
  | .str _ => .strTy
  | .list _ => .listTy
  | .dict _ => .dictTy

/-- Python truthiness (`bool(v)`): None, zero numbers, empty strings and empty
containers are falsy, everything else truthy. -/
def truthy : Py → Bool
  | .none => false
  | .bool b => b
  | .int n => n != 0
  | .float x => x != 0
  | .str s => s != ""
  | .list xs => !xs.isEmpty
  | .dict kvs => !kvs.isEmpty

/-- Numeric value of a Python number; bools count as numbers (0/1), as with
`isinstance(v, numbers.Number)`. -/
def numVal : Py → Option Rat
  | .bool b => some (if b then 1 else 0)
  | .int n => some (n : Rat)
  | .float x => some x
  | _ => Option.none

/-- Integer value of a value on which Python `+`, `-` produce an int
(bools are ints for arithmetic). -/
def intVal : Py → Option Int
  | .bool b => some (if b then 1 else 0)
  | .int n => some n
  | _ => Option.none

def isNumType : Py → Bool
  | .int _ => true
  | .float _ => true
  | _ => false

def isStrType : Py → Bool
  | .str _ => true
  | _ => false

def isBoolType : Py → Bool
  | .bool _ => true
  | _ => false

/-- First-match association-list lookup, the Python `d[key]` access for the
string-keyed dicts of this model (Python dicts have unique keys). -/
def lookupStr : List (String × Py) → String → Option Py
  | [], _ => Option.none
  | (k, v) :: rest, key => if k = key then some v else lookupStr rest key

/-- Value of a nonempty all-digit character list. -/
def digitsVal (cs : List Char) : Option Nat :=
  if cs.isEmpty then Option.none
  else if cs.all Char.isDigit then
    some (cs.foldl (fun a c => 10 * a + (c.toNat - Char.toNat ('0'))) 0)
  else Option.none

/-- Python `int(s)` on a string: optional sign then digits
(whitespace and underscore tolerance of CPython is not modelled). -/
def parseIntStr (s : String) : Option Int :=
  match s.data with
  | [] => Option.none
  | c :: rest =>
    if c = ('-') then (digitsVal rest).map (fun n => -(n : Int))
    else if c = ('+') then (digitsVal rest).map (fun n => (n : Int))
    else (digitsVal (c :: rest)).map (fun n => (n : Int))

/-- Unsigned decimal literal, `digits`, `digits.digits`, `digits.` or
`.digits`, as accepted by Python `float(s)` (exponents, `inf` and `nan`
are not modelled). -/
def parseUnsignedFloat (cs : List Char) : Option Rat :=
  let intPart := cs.takeWhile (fun c => c ≠ ('.'))
  let rest := cs.dropWhile (fun c => c ≠ ('.'))
  match rest with
  | [] => (digitsVal cs).map (fun n => (n : Rat))
  | _ :: frac =>
    if intPart.isEmpty && frac.isEmpty then Option.none
    else if frac.contains ('.') then Option.none
    else
      match (if intPart.isEmpty then some 0 else digitsVal intPart),
            (if frac.isEmpty then some 0 else digitsVal frac) with
      | some ip, some fp =>
        some ((ip : Rat) + (fp : Rat) / ((10 : Rat) ^ frac.length))
      | _, _ => Option.none

/-- Python `float(s)` string parsing with optional sign. -/
def parseFloatStr (s : String) : Option Rat :=
  match s.data with
  | [] => Option.none
  | c :: rest =>
    if c = ('-') then (parseUnsignedFloat rest).map (fun x => -x)
    else if c = ('+') then parseUnsignedFloat rest
    else parseUnsignedFloat (c :: rest)

/-- Python `float(v)`: numbers and numeric strings convert; non-numeric
strings raise ValueError; other types raise TypeError. -/
def pyFloat (v : Py) : Except PyError Rat :=
  match v with
  | .bool b => .ok (if b then 1 else 0)
  | .int n => .ok (n : Rat)
  | .float x => .ok x
  | .str s =>
    match parseFloatStr s with
    | some x => .ok x
    | _ => .error .valueError
  | _ => .error .typeError

/-- Decimal repr of an idealised float.  Integral values print as `n.0` like
Python; non-integral rationals (standing in for non-integral floats) are
printed as `num/den`, an admitted deviation from CPython shortest-repr that
no theorem below depends on. -/
def floatStr (x : Rat) : String :=
  if x.den = 1 then toString x.num ++ (".0")
  else toString x.num ++ ("/") ++ toString x.den

mutual

/-- Python `repr(v)` (quote-escaping inside strings is not modelled). -/
def pyRepr : Py → String
  | .none => "None"
  | .bool b => if b then ("True") else ("False")
  | .int n => toString n
  | .float x => floatStr x
  | .str s => "\x27" ++ s ++ "\x27"
  | .list xs => "[" ++ String.intercalate (", ") (reprList xs) ++ "]"
  | .dict kvs => "\x7b" ++ String.intercalate (", ") (reprDict kvs) ++ "\x7d"

def reprList : List Py → List String
  | [] => []
  | v :: vs => pyRepr v :: reprList vs

def reprDict : List (String × Py) → List String
  | [] => []
  | (k, v) :: rest => ("\x27" ++ k ++ "\x27: " ++ pyRepr v) :: reprDict rest

end

/-- Python `str(v)`: identity on strings, `repr` otherwise (which matches
CPython for the types here). -/
def pyStr (v : Py) : String :=
  match v with
  | .str s => s
  | v => pyRepr v

mutual

/-- Python `==`.  Numbers compare numerically across bool/int/float; lists
compare elementwise; dicts compare as key-value maps (with the Python
unique-key invariant, same length plus one-sided inclusion is equality,
ignoring insertion order exactly as Python does). -/
def pyEq : Py → Py → Bool
  | .none, .none => true
  | .bool a, .bool b => a == b
  | .bool a, .int m => (if a then (1 : Int) else 0) == m
  | .bool a, .float y => (if a then (1 : Rat) else 0) == y
  | .int n, .bool b => n == (if b then (1 : Int) else 0)
  | .int n, .int m => n == m
  | .int n, .float y => (n : Rat) == y
  | .float x, .bool b => x == (if b then (1 : Rat) else 0)
  | .float x, .int m => x == (m : Rat)
  | .float x, .float y => x == y
  | .str s, .str t => s == t
  | .list xs, .list ys => pyEqList xs ys
  | .dict xs, .dict ys => xs.length == ys.length && pyEqDictSub xs ys
  | _, _ => false

def pyEqList : List Py → List Py → Bool
  | [], [] => true
  | x :: xs, y :: ys => pyEq x y && pyEqList xs ys
  | _, _ => false

def pyEqDictSub : List (String × Py) → List (String × Py) → Bool
  | [], _ => true
  | (k, v) :: rest, ys =>
    (match lookupStr ys k with
     | some w => pyEq v w
     | _ => false) && pyEqDictSub rest ys

end

mutual

/-- Python `<` between already-coerced values: numbers numerically, strings
lexicographically, lists lexicographically via element `==`/`<`; every other
combination raises TypeError, as in CPython. -/
def pyLt : Py → Py → Except PyError Bool
  | .str s, .str t => .ok (decide (s < t))
  | .list xs, .list ys => pyLtList xs ys
  | a, b =>
    match numVal a, numVal b with
    | some x, some y => .ok (decide (x < y))
    | _, _ => .error .typeError

def pyLtList : List Py → List Py → Except PyError Bool
  | [], [] => .ok false
  | [], _ :: _ => .ok true
  | _ :: _, [] => .ok false
  | x :: xs, y :: ys => if pyEq x y then pyLtList xs ys else pyLt x y

end

/-! Operator semantics, one definition per function of the source module. -/

/-- Scanner behind `if_`: walks the argument list in (condition, result)
pairs from position `i`, returning the chosen value and its position, the
trailing else, or (None, no position), exactly as the loop in `if_`. -/
def ifStep : List Py → Nat → Py × Option Nat
  | [], _ => (.none, Option.none)
  | [e], i => (e, some i)
  | c :: r :: rest, i =>
    if truthy c then (r, some (i + 1)) else ifStep rest (i + 2)

/-- Implements the `if` operator with support for multiple elseif-s:
returns the selected operand value and its index among the operands. -/
def if_ (args : List Py) : Py × Option Nat := ifStep args 0

/-- Implements the `==` operator, which does JS-style type coercion. -/
def soft_equals (a b : Py) : Bool :=
  if isStrType a || isStrType b then pyStr a == pyStr b
  else if isBoolType a || isBoolType b then truthy a == truthy b
  else pyEq a b

/-- The `rel_tol=1e-9` default of `math.isclose` (with `abs_tol=0`),
idealised as the exact rational 10⁻⁹. -/
def relTol : Rat := 1 / 1000000000

/-- The `math.isclose` predicate at default tolerances. -/
def isclose (x y : Rat) : Bool := decide (|x - y| ≤ relTol * max |x| |y|)

/-- Checks if two variables are numeric and nearly equal
(to 1e-9 relative tolerance). -/
def almost_equal (a b : Py) : Bool :=
  match numVal a, numVal b with
  | some x, some y => isclose x y
  | _, _ => false

/-- Implements the `===` operator. -/
def hard_equals (a b : Py) : Bool :=
  if typeOf a ≠ typeOf b then false
  else pyEq a b || almost_equal a b

/-- Implements the `<` operator with JS-style type coercion: when either
operand is of int or float type both are converted with `float(...)`, a
TypeError from the conversion yields False, and any other exception (such
as the ValueError from `float` on a non-numeric string) propagates; the
comparison then chains across the remaining operands with the converted
second operand, as in the source. -/
def less (a b : Py) (args : List Py) : Except PyError Bool :=
  if isNumType a || isNumType b then
    match pyFloat a with
    | .error .typeError => .ok false
    | .error e => .error e
    | .ok x =>
      match pyFloat b with
      | .error .typeError => .ok false
      | .error e => .error e
      | .ok y =>
        if decide (x < y) then
          match args with
          | [] => .ok true
          | c :: rest => less (.float y) c rest
        else .ok false
  else
    match pyLt a b with
    | .error e => .error e
    | .ok cmp =>
      if cmp then
        match args with
        | [] => .ok true
        | c :: rest => less b c rest
      else .ok false

/-- Implements the `<=` operator with JS-style type coercion, chaining with
the original (unconverted) second operand as in the source. -/
def less_or_equal (a b : Py) (args : List Py) : Except PyError Bool :=
  match less a b [] with
  | .error e => .error e
  | .ok l =>
    if l || soft_equals a b then
      match args with
      | [] => .ok true
      | c :: rest => less_or_equal b c rest
    else .ok false

/-- Converts a string either to int or to float, depending on whether it
contains a decimal point; other values pass through. -/
def to_numeric (v : Py) : Except PyError Py :=
  match v with
  | .str s =>
    if s.contains ('.') then
      match parseFloatStr s with
      | some x => .ok (.float x)
      | _ => .error .valueError
    else
      match parseIntStr s with
      | some n => .ok (.int n)
      | _ => .error .valueError
  | v => .ok v

/-- Python `a + b` on numbers: int if both operands are int-like (bools are
ints), float as soon as a float is involved, TypeError otherwise. -/
def pyAdd (a b : Py) : Except PyError Py :=
  match intVal a, intVal b with
  | some n, some m => .ok (.int (n + m))
  | _, _ =>
    match numVal a, numVal b with
    | some x, some y => .ok (.float (x + y))
    | _, _ => .error .typeError

def plusAux : List Py → Py → Except PyError Py
  | [], acc => .ok acc
  | v :: rest, acc =>
    match to_numeric v with
    | .error e => .error e
    | .ok w =>
      match pyAdd acc w with
      | .error e => .error e
      | .ok acc2 => plusAux rest acc2

/-- Sum converts either to ints or to floats: `sum(to_numeric(arg) ...)`
starting from the int 0. -/
def plus (args : List Py) : Except PyError Py := plusAux args (.int 0)

/-- Python unary minus on a number. -/
def pyNeg (v : Py) : Except PyError Py :=
  match v with
  | .bool b => .ok (.int (-(if b then (1 : Int) else 0)))
  | .int n => .ok (.int (-n))
  | .float x => .ok (.float (-x))
  | _ => .error .typeError

/-- Python `a - b` on numbers. -/
def pySub (a b : Py) : Except PyError Py :=
  match intVal a, intVal b with
  | some n, some m => .ok (.int (n - m))
  | _, _ =>
    match numVal a, numVal b with
    | some x, some y => .ok (.float (x - y))
    | _, _ => .error .typeError

/-- Also converts either to ints or to floats; one argument negates, two
subtract (extra arguments are ignored by the source), zero arguments hit
`args[0]` and raise IndexError. -/
def minus (args : List Py) : Except PyError Py :=
  match args with
  | [] => .error .indexError
  | [a] =>
    match to_numeric a with
    | .error e => .error e
    | .ok w => pyNeg w
  | a :: b :: _ =>
    match to_numeric a with
    | .error e => .error e
    | .ok wa =>
      match to_numeric b with
      | .error e => .error e
      | .ok wb => pySub wa wb

def timesRat : List Py → Rat → Except PyError Rat
  | [], acc => .ok acc
  | v :: rest, acc =>
    match pyFloat v with
    | .error e => .error e
    | .ok x => timesRat rest (acc * x)

/-- The `*` operator: a left fold multiplying by `float(arg)` starting from
the int 1, so the empty product is the int 1 and any nonempty product is a
float. -/
def timesFold (args : List Py) : Except PyError Py :=
  match args with
  | [] => .ok (.int 1)
  | _ => (timesRat args 1).map .float

/-- The `/` operator: identity on one argument (or when the divisor is
None, its default), float division on two. -/
def divOp (args : List Py) : Except PyError Py :=
  match args with
  | [a] => .ok a
  | [a, .none] => .ok a
  | [a, b] =>
    match pyFloat a with
    | .error e => .error e
    | .ok x =>
      match pyFloat b with
      | .error e => .error e
      | .ok y =>
        if y = 0 then .error .zeroDivisionError else .ok (.float (x / y))
  | _ => .error .typeError

/-- The `%` operator, Python remainder (sign of the divisor).  Printf-style
string formatting that Python `%` performs on a string left operand is not
modelled (treated as TypeError); no claim depends on it. -/
def pyMod (args : List Py) : Except PyError Py :=
  match args with
  | [a, b] =>
    (match intVal a, intVal b with
     | some n, some m =>
       if m = 0 then .error .zeroDivisionError else .ok (.int (Int.fmod n m))
     | _, _ =>
       match numVal a, numVal b with
       | some x, some y =>
         if y = 0 then .error .zeroDivisionError
         else .ok (.float (x - y * (((x / y).floor : Int) : Rat)))
       | _, _ => .error .typeError)
  | _ => .error .typeError

/-- Python `min(args)`: scan keeping the first minimum under `<`. -/
def minFold : List Py → Py → Except PyError Py
  | [], acc => .ok acc
  | v :: rest, acc =>
    match pyLt v acc with
    | .error e => .error e
    | .ok lt => minFold rest (if lt then v else acc)

def minOp (args : List Py) : Except PyError Py :=
  match args with
  | [] => .error .valueError
  | a :: rest => minFold rest a

/-- Python `max(args)`: scan keeping the first maximum under `<`. -/
def maxFold : List Py → Py → Except PyError Py
  | [], acc => .ok acc
  | v :: rest, acc =>
    match pyLt acc v with
    | .error e => .error e
    | .ok lt => maxFold rest (if lt then v else acc)

def maxOp (args : List Py) : Except PyError Py :=
  match args with
  | [] => .error .valueError
  | a :: rest => maxFold rest a

/-- Implements the `merge` operator for merging lists: one level of
flattening, list arguments contribute their elements. -/
def merge : List Py → List Py
  | [] => []
  | (.list xs) :: rest => xs ++ merge rest
  | v :: rest => v :: merge rest

/-- Needle occurs as a prefix of the haystack. -/
def isSubAt : List Char → List Char → Bool
  | [], _ => true
  | _ :: _, [] => false
  | c :: cs, d :: ds => c == d && isSubAt cs ds

/-- Needle occurs somewhere in the haystack (Python substring `in`). -/
def hasSub (needle : List Char) : List Char → Bool
  | [] => isSubAt needle []
  | hay@(_ :: rest) => isSubAt needle hay || hasSub needle rest

/-- The `in` operator: `a in b` when `b` has `__contains__` (strings test
substrings and require a string left operand, lists test element equality,
dicts test key membership), and False otherwise. -/
def inOp (a b : Py) : Except PyError Bool :=
  match b with
  | .str t =>
    match a with
    | .str s => .ok (hasSub s.data t.data)
    | _ => .error .typeError
  | .list ys => .ok (ys.any (fun y => pyEq a y))
  | .dict kvs => .ok (kvs.any (fun kv => pyEq a (.str kv.fst)))
  | _ => .ok false

/-- The `cat` operator: stringify and concatenate. -/
def catOp (args : List Py) : Py :=
  .str (args.foldl (fun acc v => acc ++ pyStr v) "")

/-- The `count` operator: number of truthy operands. -/
def countOp (args : List Py) : Py :=
  .int (args.foldl (fun acc v => if truthy v then acc + 1 else acc) 0)

/-- The `and` operator: `reduce(lambda total, arg: total and arg, args, True)`,
returning the first falsy operand or the last operand; True on no operands. -/
def pyAnd (args : List Py) : Py :=
  args.foldl (fun t a => if truthy t then a else t) (.bool true)

/-- The `or` operator: `reduce(lambda total, arg: total or arg, args, False)`,
returning the first truthy operand or the last operand; False on no
operands. -/
def pyOr (args : List Py) : Py :=
  args.foldl (fun t a => if truthy t then t else a) (.bool false)

/-! Variable resolution (`get_var`, `missing`, `missing_some`). -/

/-- Python list indexing with negative wraparound; IndexError out of range. -/
def getIndex (xs : List Py) (i : Int) : Except PyError Py :=
  let n : Int := xs.length
  let j := if i < 0 then i + n else i
  if 0 ≤ j ∧ j < n then .ok (xs.getD j.toNat Py.none) else .error .indexError

/-- Python string indexing with negative wraparound; IndexError out of
range. -/
def strIndex (s : String) (i : Int) : Except PyError Py :=
  let cs := s.data
  let n : Int := cs.length
  let j := if i < 0 then i + n else i
  if 0 ≤ j ∧ j < n then .ok (.str (String.mk [cs.getD j.toNat (' ')]))
  else .error .indexError

/-- One step of the `get_var` walk: `data[key]`, retried as
`data[int(key)]` on TypeError, exactly as the inner try/except.  Dict
access misses raise KeyError; sequence access with a non-integer segment
raises ValueError from `int(key)`; out-of-range sequence access raises
IndexError (which the outer except of `get_var` does NOT catch);
non-subscriptable data raises TypeError (or ValueError from `int(key)`
first), both caught by the outer except. -/
def subscript (data : Py) (key : String) : Except PyError Py :=
  match data with
  | .dict kvs =>
    match lookupStr kvs key with
    | some v => .ok v
    | _ => .error .keyError
  | .list xs =>
    match parseIntStr key with
    | some i => getIndex xs i
    | _ => .error .valueError
  | .str s =>
    match parseIntStr key with
    | some i => strIndex s i
    | _ => .error .valueError
  | _ =>
    match parseIntStr key with
    | some _ => .error .typeError
    | _ => .error .valueError

/-- The exception kinds caught by `except (KeyError, TypeError, ValueError)`
in `get_var`. -/
def caughtByGetVar : PyError → Bool
  | .keyError => true
  | .typeError => true
  | .valueError => true
  | _ => false

/-- The dotted-path walk of `get_var`: `ok (some v)` on success, `ok none`
when a caught exception ends the walk (lookup failed), and a propagated
error otherwise (e.g. IndexError). -/
def walkPath (data : Py) : List String → Except PyError (Option Py)
  | [] => .ok (some data)
  | k :: rest =>
    match subscript data k with
    | .ok v => walkPath v rest
    | .error e => if caughtByGetVar e then .ok Option.none else .error e

def splitDotAux : List Char → List Char → List String
  | [], acc => [String.mk acc.reverse]
  | c :: rest, acc =>
    if c = ('.') then String.mk acc.reverse :: splitDotAux rest []
    else splitDotAux rest (c :: acc)

/-- Python `s.split(".")`: the empty string yields `[""]`, and every dot
separates two (possibly empty) segments. -/
def splitDot (s : String) : List String := splitDotAux s.data []

/-- The lookup core shared by `get_var`, `missing` and `missing_some`:
`ok none` plays the role of the `object()` sentinel (lookup failed). -/
def getVarCore (data varName : Py) : Except PyError (Option Py) :=
  walkPath data (splitDot (pyStr varName))

/-- Gets variable value from data dictionary; with a None (= absent)
default, a failed lookup raises `ValueError(f"Unknown variable: ...")`. -/
def get_var (data varName notFound : Py) : Except PyError Py :=
  match getVarCore data varName with
  | .ok (some v) => .ok v
  | .ok Option.none =>
    match notFound with
    | .none => .error (.unknownVariable (pyStr varName))
    | nf => .ok nf
  | .error e => .error e

/-- The `var` dispatch `get_var(data, *new_values)`: one or two operands,
any other arity is a TypeError of the call. -/
def varOp (data : Py) (args : List Py) : Except PyError Py :=
  match args with
  | [v] => get_var data v Py.none
  | [v, d] => get_var data v d
  | _ => .error .typeError

def collectMissing (data : Py) : List Py → Except PyError (List Py)
  | [] => .ok []
  | a :: rest =>
    match getVarCore data a with
    | .error e => .error e
    | .ok (some _) => collectMissing data rest
    | .ok _ =>
      match collectMissing data rest with
      | .error e => .error e
      | .ok ms => .ok (a :: ms)

/-- Implements the missing operator for finding missing variables; a single
leading list operand replaces the whole argument list, as in the source. -/
def missing (data : Py) (args : List Py) : Except PyError Py :=
  let names :=
    match args with
    | (.list xs) :: _ => xs
    | other => other
  (collectMissing data names).map .list

/-- Python iteration over the `args` of `missing_some`: lists yield
elements, strings characters, dicts keys; else TypeError. -/
def pyIter (v : Py) : Except PyError (List Py) :=
  match v with
  | .list xs => .ok xs
  | .str s => .ok (s.data.map (fun c => .str (String.mk [c])))
  | .dict kvs => .ok (kvs.map (fun kv => .str kv.fst))
  | _ => .error .typeError

/-- Python `found >= min_required` with `found` an int. -/
def intGe (n : Int) (v : Py) : Except PyError Bool :=
  match numVal v with
  | some r => .ok (decide (r ≤ (n : Rat)))
  | _ => .error .typeError

/-- The scan loop of `missing_some`: collect missing names, count found
ones, and return `[]` as soon as the found count reaches the threshold. -/
def msLoop (data minReq : Py) (found : Int) :
    List Py → List Py → Except PyError Py
  | [], acc => .ok (.list acc.reverse)
  | a :: rest, acc =>
    match getVarCore data a with
    | .error e => .error e
    | .ok (some _) =>
      (match intGe (found + 1) minReq with
       | .error e => .error e
       | .ok true => .ok (.list [])
       | .ok false => msLoop data minReq (found + 1) rest acc)
    | .ok _ => msLoop data minReq found rest (a :: acc)

/-- Implements the missing_some operator: exactly two operands
(min_required and the names), short-circuiting `[]` when `min_required < 1`
or once enough names are found. -/
def missing_some (data : Py) (args : List Py) : Except PyError Py :=
  match args with
  | [minReq, names] =>
    (match pyLt minReq (.int 1) with
     | .error e => .error e
     | .ok true => .ok (.list [])
     | .ok false =>
       match pyIter names with
       | .error e => .error e
       | .ok ns => msLoop data minReq 0 ns [])
  | _ => .error .typeError

/-! The operations table and the evaluator. -/

/-- The keys of the `operations` dict. -/
def opsTable : List String :=
  ["==", "===", "!=", "!==", ">", ">=", "<", "<=", "!", "!!", "%",
   "and", "or", "?:", "if", "log", "in", "cat", "+", "*", "-", "/",
   "min", "max", "merge", "count"]

/-- Membership test `operator in operations`. -/
def opsContains (op : String) : Bool := opsTable.contains op

/-- Applies a pure operator of the `operations` table to evaluated operand
values; arity mismatches of the underlying Python callables are
TypeErrors. -/
def applyOps (op : String) (args : List Py) : Except PyError Py :=
  if op = "==" then
    match args with
    | [a, b] => .ok (.bool (soft_equals a b))
    | _ => .error .typeError
  else if op = "===" then
    match args with
    | [a, b] => .ok (.bool (hard_equals a b))
    | _ => .error .typeError
  else if op = "!=" then
    match args with
    | [a, b] => .ok (.bool (!soft_equals a b))
    | _ => .error .typeError
  else if op = "!==" then
    match args with
    | [a, b] => .ok (.bool (!hard_equals a b))
    | _ => .error .typeError
  else if op = ">" then
    match args with
    | [a, b] => (less b a []).map .bool
    | _ => .error .typeError
  else if op = ">=" then
    match args with
    | [a, b] => (less b a []).map (fun l => .bool (l || soft_equals a b))
    | _ => .error .typeError
  else if op = "<" then
    match args with
    | a :: b :: rest => (less a b rest).map .bool
    | _ => .error .typeError
  else if op = "<=" then
    match args with
    | a :: b :: rest => (less_or_equal a b rest).map .bool
    | _ => .error .typeError
  else if op = "!" then
    match args with
    | [a] => .ok (.bool (!truthy a))
    | _ => .error .typeError
  else if op = "!!" then
    match args with
    | [] => .ok (.bool false)
    | [a] => .ok (.bool (truthy a))
    | _ => .error .typeError
  else if op = "%" then pyMod args
  else if op = "and" then .ok (pyAnd args)
  else if op = "or" then .ok (pyOr args)
  else if op = "?:" then
    match args with
    | [a, b, c] => .ok (if truthy a then b else c)
    | _ => .error .typeError
  else if op = "log" then
    match args with
    | [a] => .ok a
    | _ => .error .typeError
  else if op = "in" then
    match args with
    | [a, b] => (inOp a b).map .bool
    | _ => .error .typeError
  else if op = "cat" then .ok (catOp args)
  else if op = "+" then plus args
  else if op = "*" then timesFold args
  else if op = "-" then minus args
  else if op = "/" then divOp args
  else if op = "min" then minOp args
  else if op = "max" then maxOp args
  else if op = "merge" then .ok (.list (merge args))
  else if op = "count" then .ok (countOp args)
  else .error (.unrecognizedOperator op)

/-- The `data = data or {}` defaulting at the top of every call. -/
def defaultData (d : Py) : Py := if truthy d then d else .dict []

/-- The operator dispatch of `jsonLogic` after the operands have been
evaluated: the context-aware specials first, then the membership check,
then `if` with its trace pruning, then the pure table. -/
def dispatch (op : String) (d : Py) (newValues childTraces : List Py) :
    Except PyError (Py × Py) :=
  let executedLogic := Py.dict [(op, .list childTraces)]
  if op = "var" then (varOp d newValues).map (fun v => (v, executedLogic))
  else if op = "missing" then
    (missing d newValues).map (fun v => (v, executedLogic))
  else if op = "missing_some" then
    (missing_some d newValues).map (fun v => (v, executedLogic))
  else if opsContains op = false then .error (.unrecognizedOperator op)
  else if op = "if" then
    match if_ newValues with
    | (result, some branch) => .ok (result, childTraces.getD branch Py.none)
    | (result, _) => .ok (result, .dict [])
  else (applyOps op newValues).map (fun v => (v, executedLogic))

mutual

/-- Executes the json-logic with given data: primitives return unchanged as
both value and trace; an operation node evaluates its (normalised) operand
list recursively and dispatches on its first key. -/
def jsonLogic (tests data : Py) : Except PyError (Py × Py) :=
  match tests with
  | .dict kvs =>
    match kvs with
    | [] => .error .indexError
    | (op, rawValues) :: _ =>
      match evalOperands rawValues (defaultData data) with
      | .error e => .error e
      | .ok (newValues, childTraces) =>
        dispatch op (defaultData data) newValues childTraces
  | t => .ok (t, t)

/-- Normalises the operand container (easy syntax for unary operators) and
evaluates the operands. -/
def evalOperands (rawValues d : Py) : Except PyError (List Py × List Py) :=
  match rawValues with
  | .list xs => jsonList xs d
  | v =>
    match jsonLogic v d with
    | .error e => .error e
    | .ok (x, t) => .ok ([x], [t])

/-- The recursion over the operand list, collecting values and traces. -/
def jsonList (vals : List Py) (d : Py) : Except PyError (List Py × List Py) :=
  match vals with
  | [] => .ok ([], [])
  | v :: vs =>
    match jsonLogic v d with
    | .error e => .error e
    | .ok (x, t) =>
      match jsonList vs d with
      | .error e => .error e
      | .ok (xs, ts) => .ok (x :: xs, t :: ts)

end

/-- An operation node in the sense of the source: any dict. -/
def isOperationNode : Py → Bool
  | .dict _ => true
  | _ => false

mutual

/-- No zero-key operation node occurs in evaluable rule position (list
literals are primitives and are not entered, mirroring the evaluator). -/
def noEmptyNode : Py → Bool
  | .dict kvs =>
    match kvs with
    | [] => false
    | (_, .list xs) :: _ => noEmptyList xs
    | (_, v) :: _ => noEmptyNode v
  | _ => true

def noEmptyList : List Py → Bool
  | [] => true
  | v :: vs => noEmptyNode v && noEmptyList vs

end

def twoStepInd {motive : List Py → Prop} (h0 : motive [])
    (h1 : ∀ a, motive [a])
    (h2 : ∀ a b l, motive l → motive (a :: b :: l)) : ∀ l, motive l
  | [] => h0
  | [a] => h1 a
  | a :: b :: l => h2 a b l (twoStepInd h0 h1 h2 l)


/-- Lookup of this name neither finds a value nor raises. -/
def isMissingName (data a : Py) : Bool :=
  match getVarCore data a with
  | .ok (some _) => false
  | .ok _ => true
  | .error _ => false

/-- Lookup of this name finds a value. -/
def isFound (data a : Py) : Bool :=
  match getVarCore data a with
  | .ok (some _) => true
  | _ => false

/-- No lookup in this name list raises an uncaught exception. -/
def lookupsOK (data : Py) (names : List Py) : Bool :=
  names.all (fun a =>
    match getVarCore data a with
    | .error _ => false
    | _ => true)

/-- Number of names in the list whose lookup succeeds. -/
def foundCount (data : Py) (names : List Py) : Nat :=
  names.countP (isFound data)

/-- The names whose lookup fails, in input order. -/
def missingNames (data : Py) (names : List Py) : List Py :=
  names.filter (isMissingName data)

/-! Supporting lemmas. -/

theorem relTol_pos : (0 : Rat) < relTol := by norm_num [relTol]

theorem tol_nonneg (u v : Rat) : 0 ≤ relTol * max |u| |v| :=
  mul_nonneg relTol_pos.le ((abs_nonneg u).trans (le_max_left _ _))

theorem isclose_of_eq (x y : Rat) (h : x = y) : isclose x y = true := by
  subst h
  simp only [isclose, sub_self, abs_zero, decide_eq_true_eq]
  exact tol_nonneg x x

theorem ifStep_no_branch :
    ∀ l : List Py, l.length % 2 = 0 →
      (∀ k, 2 * k + 1 < l.length → truthy (l.getD (2 * k) Py.none) = false) →
      ∀ i, ifStep l i = (Py.none, Option.none) := by
  intro l
  induction l using twoStepInd with
  | h0 =>
    intro _ _ i
    simp [ifStep]
  | h1 a =>
    intro h _ _
    simp at h
  | h2 a b l ih =>
    intro heven hf i
    have ha : truthy a = false := by simpa using hf 0 (by simp)
    have hrest : ∀ k, 2 * k + 1 < l.length →
        truthy (l.getD (2 * k) Py.none) = false := by
      intro k hk
      have h2k : 2 * (k + 1) = 2 * k + 1 + 1 := by ring
      have := hf (k + 1) (by simp; omega)
      rwa [h2k, List.getD_cons_succ, List.getD_cons_succ] at this
    simp only [ifStep, ha, Bool.false_eq_true, if_false]
    refine ih ?_ hrest (i + 2)
    simp at heven
    omega

theorem ifStep_branch :
    ∀ (l : List Py) (m : Nat), 2 * m + 1 < l.length →
      truthy (l.getD (2 * m) Py.none) = true →
      (∀ j, j < m → truthy (l.getD (2 * j) Py.none) = false) →
      ∀ i, ifStep l i = (l.getD (2 * m + 1) Py.none, some (i + (2 * m + 1))) := by
  intro l
  induction l using twoStepInd with
  | h0 =>
    intro m hm
    simp at hm
  | h1 a =>
    intro m hm
    simp only [List.length_singleton] at hm
    omega
  | h2 a b l ih =>
    intro m hm ht hj i
    cases m with
    | zero =>
      have ha : truthy a = true := by simpa using ht
      simp [ifStep, ha]
    | succ m =>
      have ha : truthy a = false := by simpa using hj 0 (Nat.succ_pos m)
      have hms : 2 * (m + 1) = 2 * m + 1 + 1 := by ring
      have hm2 : 2 * m + 1 < l.length := by
        simp at hm
        omega
      have ht2 : truthy (l.getD (2 * m) Py.none) = true := by
        rwa [hms, List.getD_cons_succ, List.getD_cons_succ] at ht
      have hj2 : ∀ j, j < m → truthy (l.getD (2 * j) Py.none) = false := by
        intro j hjm
        have h2j : 2 * (j + 1) = 2 * j + 1 + 1 := by ring
        have := hj (j + 1) (by omega)
        rwa [h2j, List.getD_cons_succ, List.getD_cons_succ] at this
      have hgoal : 2 * (m + 1) + 1 = (2 * m + 1) + 1 + 1 := by ring
      simp only [ifStep, ha, Bool.false_eq_true, if_false]
      rw [ih m hm2 ht2 hj2 (i + 2), hgoal, List.getD_cons_succ,
        List.getD_cons_succ]
      refine congrArg _ (congrArg _ ?_)
      omega

/-- Native comparison of two numeric values, as used by
`min_required < 1` and `found >= min_required`. -/
theorem pyLt_num (a b : Py) (x y : Rat) (ha : numVal a = some x)
    (hb : numVal b = some y) : pyLt a b = .ok (decide (x < y)) := by
  cases a <;> cases b <;> simp_all [numVal, pyLt]

theorem msLoop_reaches (data minReq : Py) (r : Rat)
    (hm : numVal minReq = some r) :
    ∀ (p s : List Py) (found : Int) (acc : List Py),
      lookupsOK data p = true →
      r ≤ (found : Rat) + (foundCount data p : Rat) →
      (found : Rat) < r →
      msLoop data minReq found (p ++ s) acc = .ok (.list []) := by
  intro p
  induction p with
  | nil =>
    intro s found acc _ hge hlt
    simp only [foundCount, List.countP_nil, Nat.cast_zero, add_zero] at hge
    exact absurd hge (not_le.mpr hlt)
  | cons a p ih =>
    intro s found acc hok hge hlt
    have hoka : (match getVarCore data a with
        | .error _ => false
        | _ => true) = true := by
      have := hok
      simp [lookupsOK, List.all_cons] at this
      exact this.1
    have hokp : lookupsOK data p = true := by
      have := hok
      simp [lookupsOK, List.all_cons] at this
      simpa [lookupsOK] using this.2
    rw [List.cons_append]
    cases hcore : getVarCore data a with
    | error e => rw [hcore] at hoka; simp at hoka
    | ok w =>
      cases w with
      | none =>
        have hfc : foundCount data (a :: p) = foundCount data p := by
          simp [foundCount, List.countP_cons, isFound, hcore]
        rw [hfc] at hge
        simp only [msLoop, hcore]
        exact ih s found (a :: acc) hokp hge hlt
      | some v =>
        have hfc : foundCount data (a :: p) = foundCount data p + 1 := by
          simp [foundCount, List.countP_cons, isFound, hcore]
        simp only [msLoop, hcore, intGe, hm]
        push_cast
        by_cases hr : r ≤ (found : Rat) + 1
        · simp [hr]
        · simp only [decide_eq_false hr]
          refine ih s (found + 1) acc hokp ?_ (by push_cast; linarith [not_le.mp hr])
          rw [hfc] at hge
          push_cast at hge ⊢
          linarith

theorem msLoop_completes (data minReq : Py) (r : Rat)
    (hm : numVal minReq = some r) :
    ∀ (names : List Py) (found : Int) (acc : List Py),
      lookupsOK data names = true →
      (found : Rat) + (foundCount data names : Rat) < r →
      msLoop data minReq found names acc
        = .ok (.list (acc.reverse ++ missingNames data names)) := by
  intro names
  induction names with
  | nil =>
    intro found acc _ _
    simp [msLoop, missingNames]
  | cons a p ih =>
    intro found acc hok hlt
    have hoka : (match getVarCore data a with
        | .error _ => false
        | _ => true) = true := by
      have := hok
      simp [lookupsOK, List.all_cons] at this
      exact this.1
    have hokp : lookupsOK data p = true := by
      have := hok
      simp [lookupsOK, List.all_cons] at this
      simpa [lookupsOK] using this.2
    cases hcore : getVarCore data a with
    | error e => rw [hcore] at hoka; simp at hoka
    | ok w =>
      cases w with
      | none =>
        have hfc : foundCount data (a :: p) = foundCount data p := by
          simp [foundCount, List.countP_cons, isFound, hcore]
        have hmiss : missingNames data (a :: p) = a :: missingNames data p := by
          simp [missingNames, List.filter_cons, isMissingName, hcore]
        simp only [msLoop, hcore]
        rw [ih found (a :: acc) hokp (by rw [hfc] at hlt; exact hlt), hmiss]
        simp
      | some v =>
        have hfc : foundCount data (a :: p) = foundCount data p + 1 := by
          simp [foundCount, List.countP_cons, isFound, hcore]
        have hmiss : missingNames data (a :: p) = missingNames data p := by
          simp [missingNames, List.filter_cons, isMissingName, hcore]
        have hr : ¬ r ≤ (found : Rat) + 1 := by
          rw [hfc] at hlt
          push_cast at hlt
          have h0 : (0 : Rat) ≤ (foundCount data p : Rat) := by positivity
          linarith
        have harg : ((found + 1 : Int) : Rat) + (foundCount data p : Rat) < r := by
          rw [hfc] at hlt
          push_cast at hlt ⊢
          linarith
        simp only [msLoop, hcore, intGe, hm]
        push_cast
        simp only [decide_eq_false hr]
        rw [ih (found + 1) acc hokp harg, hmiss]

theorem defaultData_idem (d : Py) :
    defaultData (defaultData d) = defaultData d := by
  have h2 : truthy (Py.dict []) = false := rfl
  by_cases h : truthy d = true
  · simp [defaultData, h]
  · simp [defaultData, h, h2]

theorem jsonLogic_defaultData (t d : Py) :
    jsonLogic t (defaultData d) = jsonLogic t d := by
  cases t
  case dict kvs =>
    cases kvs with
    | nil => simp [jsonLogic]
    | cons hd tl =>
      obtain ⟨op, rv⟩ := hd
      simp only [jsonLogic, defaultData_idem]
  all_goals simp [jsonLogic]

theorem map_pair_ok (e : Except PyError Py) (tr0 v tr : Py)
    (h : Except.map (fun w => (w, tr0)) e = .ok (v, tr)) :
    e = .ok v ∧ tr = tr0 := by
  cases e with
  | error a => simp [Except.map] at h
  | ok w =>
    simp only [Except.map, Except.ok.injEq, Prod.mk.injEq] at h
    exact ⟨by rw [h.1], h.2.symm⟩

theorem jsonList_length (vs : List Py) (d : Py) :
    ∀ xs trs : List Py, jsonList vs d = .ok (xs, trs) →
      xs.length = vs.length ∧ trs.length = vs.length := by
  induction vs with
  | nil =>
    intro xs trs h
    simp only [jsonList, Except.ok.injEq, Prod.mk.injEq] at h
    obtain ⟨h1, h2⟩ := h
    simp [← h1, ← h2]
  | cons v vs ih =>
    intro xs trs h
    simp only [jsonList] at h
    cases hv : jsonLogic v d with
    | error e => rw [hv] at h; simp at h
    | ok p =>
      obtain ⟨x, t⟩ := p
      rw [hv] at h
      cases hl : jsonList vs d with
      | error e => rw [hl] at h; simp at h
      | ok q =>
        obtain ⟨xs2, trs2⟩ := q
        rw [hl] at h
        simp only [Except.ok.injEq, Prod.mk.injEq] at h
        obtain ⟨h1, h2⟩ := h
        obtain ⟨hlen1, hlen2⟩ := ih xs2 trs2 hl
        simp [← h1, ← h2, hlen1, hlen2]

theorem jsonList_get (vs : List Py) (d : Py) :
    ∀ xs trs : List Py, jsonList vs d = .ok (xs, trs) →
      ∀ m, m < vs.length →
        jsonLogic (vs.getD m Py.none) d
          = .ok (xs.getD m Py.none, trs.getD m Py.none) := by
  induction vs with
  | nil =>
    intro xs trs _ m hm
    simp at hm
  | cons v vs ih =>
    intro xs trs h m hm
    simp only [jsonList] at h
    cases hv : jsonLogic v d with
    | error e => rw [hv] at h; simp at h
    | ok p =>
      obtain ⟨x, t⟩ := p
      rw [hv] at h
      cases hl : jsonList vs d with
      | error e => rw [hl] at h; simp at h
      | ok q =>
        obtain ⟨xs2, trs2⟩ := q
        rw [hl] at h
        simp only [Except.ok.injEq, Prod.mk.injEq] at h
        obtain ⟨h1, h2⟩ := h
        subst h1
        subst h2
        cases m with
        | zero => simpa using hv
        | succ m =>
          have hm2 : m < vs.length := by simpa using hm
          simpa using ih xs2 trs2 hl m hm2

theorem sizeOf_getD_lt (vs : List Py) :
    ∀ m, m < vs.length → sizeOf (vs.getD m Py.none) < sizeOf vs := by
  induction vs with
  | nil =>
    intro m hm
    simp at hm
  | cons v vs ih =>
    intro m hm
    cases m with
    | zero =>
      simp only [List.getD_cons_zero, List.cons.sizeOf_spec]
      omega
    | succ m =>
      have hm2 : m < vs.length := by simpa using hm
      have := ih m hm2
      simp only [List.getD_cons_succ, List.cons.sizeOf_spec]
      omega

theorem ifStep_some (l : List Py) :
    ∀ i r j, ifStep l i = (r, some j) →
      ∃ m, j = i + m ∧ m < l.length ∧ r = l.getD m Py.none := by
  induction l using twoStepInd with
  | h0 =>
    intro i r j h
    simp [ifStep] at h
  | h1 a =>
    intro i r j h
    simp only [ifStep, Prod.mk.injEq, Option.some.injEq] at h
    exact ⟨0, by omega, by simp, by simp [← h.1]⟩
  | h2 a b l ih =>
    intro i r j h
    simp only [ifStep] at h
    by_cases ht : truthy a = true
    · rw [if_pos ht] at h
      simp only [Prod.mk.injEq, Option.some.injEq] at h
      exact ⟨1, by omega, by simp, by simp [← h.1]⟩
    · rw [if_neg ht] at h
      obtain ⟨m, hj, hm, hr⟩ := ih (i + 2) r j h
      refine ⟨m + 2, by omega, by simp; omega, ?_⟩
      have : (a :: b :: l).getD (m + 2) Py.none = l.getD m Py.none := by
        simp [List.getD_cons_succ]
      rw [this]
      exact hr

theorem noEmptyList_get (trs : List Py) :
    ∀ m, noEmptyList trs = true → m < trs.length →
      noEmptyNode (trs.getD m Py.none) = true := by
  induction trs with
  | nil =>
    intro m _ hm
    simp at hm
  | cons t trs ih =>
    intro m hne hm
    simp only [noEmptyList, Bool.and_eq_true] at hne
    cases m with
    | zero => simpa using hne.1
    | succ m =>
      have : m < trs.length := by simpa using hm
      simpa using ih m hne.2 this

theorem evalOperands_ok (rv d : Py) (nvs cts : List Py)
    (h : evalOperands rv d = .ok (nvs, cts)) :
    ∃ vs : List Py, jsonList vs d = .ok (nvs, cts) ∧
      sizeOf vs ≤ sizeOf rv + 2 := by
  by_cases hl : ∃ xs, rv = Py.list xs
  · obtain ⟨xs, rfl⟩ := hl
    refine ⟨xs, by simpa [evalOperands] using h, ?_⟩
    simp only [Py.list.sizeOf_spec]
    omega
  · have heq : evalOperands rv d =
        match jsonLogic rv d with
        | .error e => .error e
        | .ok (x, t) => .ok ([x], [t]) := by
      cases rv
      case list xs => exact absurd ⟨xs, rfl⟩ hl
      all_goals simp [evalOperands]
    rw [heq] at h
    cases hv : jsonLogic rv d with
    | error e => rw [hv] at h; simp at h
    | ok p =>
      obtain ⟨x, t⟩ := p
      rw [hv] at h
      simp only [Except.ok.injEq, Prod.mk.injEq] at h
      obtain ⟨h1, h2⟩ := h
      refine ⟨[rv], ?_, ?_⟩
      · simp [jsonList, hv, ← h1, ← h2]
      · simp only [List.cons.sizeOf_spec, List.nil.sizeOf_spec]
        omega

theorem dispatch_trace (op : String) (d : Py) (xs trs : List Py) (v tr : Py)
    (hop : op ≠ "if") (h : dispatch op d xs trs = .ok (v, tr)) :
    tr = .dict [(op, .list trs)] := by
  simp only [dispatch] at h
  split_ifs at h <;>
    first
      | exact (map_pair_ok _ _ _ _ h).2
      | (exfalso; simp at h)
      | exact absurd (by assumption) hop

/-- The heart of the trace idempotence property: by strong induction on the
size of the rule, a successful evaluation whose trace contains no zero-key
operation node re-evaluates, against the same data, to the same value and
the very same trace. -/
theorem trace_refix : ∀ n : Nat,
    (∀ t : Py, sizeOf t ≤ n → ∀ d v tr, jsonLogic t d = .ok (v, tr) →
      noEmptyNode tr = true → jsonLogic tr d = .ok (v, tr)) ∧
    (∀ vs : List Py, sizeOf vs ≤ n → ∀ d xs trs,
      jsonList vs d = .ok (xs, trs) → noEmptyList trs = true →
      jsonList trs d = .ok (xs, trs)) := by
  intro n
  induction n using Nat.strong_induction_on with
  | _ n IH =>
    constructor
    · intro t hsz d v tr hev hne
      cases t
      case dict kvs =>
        cases kvs with
        | nil => simp [jsonLogic] at hev
        | cons hd tl =>
          obtain ⟨op, rv⟩ := hd
          simp only [jsonLogic] at hev
          cases hop2 : evalOperands rv (defaultData d) with
          | error e =>
            rw [hop2] at hev
            simp at hev
          | ok pr =>
            obtain ⟨nvs, cts⟩ := pr
            simp only [hop2] at hev
            obtain ⟨vs, hjl, hvs⟩ := evalOperands_ok _ _ _ _ hop2
            have hszvs : sizeOf vs < sizeOf (Py.dict ((op, rv) :: tl)) := by
              have hb : sizeOf rv + 2 < sizeOf (Py.dict ((op, rv) :: tl)) := by
                simp only [Py.dict.sizeOf_spec, List.cons.sizeOf_spec,
                  Prod.mk.sizeOf_spec]
                omega
              omega
            by_cases hif : op = "if"
            · subst hif
              have hoc : opsContains ("if") = true := by rfl
              simp [dispatch, hoc] at hev
              cases hifv : if_ nvs with
              | mk res ob =>
                rw [hifv] at hev
                cases ob with
                | none =>
                  simp only [Except.ok.injEq, Prod.mk.injEq] at hev
                  rw [← hev.2] at hne
                  simp [noEmptyNode] at hne
                | some j =>
                  simp only [Except.ok.injEq, Prod.mk.injEq] at hev
                  obtain ⟨hv2, ht2⟩ := hev
                  subst hv2
                  subst ht2
                  have hifv2 : ifStep nvs 0 = (res, some j) := by
                    simpa [if_] using hifv
                  obtain ⟨m, hj, hmlen, hres⟩ := ifStep_some nvs 0 res j hifv2
                  have hj0 : j = m := by omega
                  subst hj0
                  have hconv : cts[j]?.getD Py.none = cts.getD j Py.none :=
                    (List.getD_eq_getElem?_getD cts j Py.none).symm
                  rw [hconv] at hne ⊢
                  obtain ⟨hlen1, hlen2⟩ := jsonList_length vs _ nvs cts hjl
                  have hmvs : j < vs.length := by omega
                  have hg := jsonList_get vs (defaultData d) nvs cts hjl j hmvs
                  have hsg : sizeOf (vs.getD j Py.none) < n := by
                    have := sizeOf_getD_lt vs j hmvs
                    omega
                  have hstep := (IH (sizeOf (vs.getD j Py.none)) hsg).1
                    (vs.getD j Py.none) le_rfl (defaultData d)
                    (nvs.getD j Py.none) (cts.getD j Py.none) hg hne
                  rw [jsonLogic_defaultData] at hstep
                  rw [hres]
                  exact hstep
            · have htr : tr = .dict [(op, .list cts)] :=
                dispatch_trace op _ nvs cts v tr hif hev
              subst htr
              have hnel : noEmptyList cts = true := by
                simpa [noEmptyNode] using hne
              have hl2 := (IH (sizeOf vs) (by omega)).2 vs le_rfl
                (defaultData d) nvs cts hjl hnel
              simp only [jsonLogic, evalOperands, hl2]
              exact hev
      all_goals {
        simp only [jsonLogic, Except.ok.injEq, Prod.mk.injEq] at hev
        obtain ⟨h1, h2⟩ := hev
        subst h1
        subst h2
        simp [jsonLogic]
      }
    · intro vs hsz d xs trs hev hne
      cases vs with
      | nil =>
        simp only [jsonList, Except.ok.injEq, Prod.mk.injEq] at hev
        obtain ⟨h1, h2⟩ := hev
        subst h1
        subst h2
        simp [jsonList]
      | cons v vs2 =>
        simp only [jsonList] at hev
        cases hv : jsonLogic v d with
        | error e => rw [hv] at hev; simp at hev
        | ok p =>
          obtain ⟨x, t⟩ := p
          rw [hv] at hev
          cases hl : jsonList vs2 d with
          | error e => rw [hl] at hev; simp at hev
          | ok q =>
            obtain ⟨xs2, trs2⟩ := q
            rw [hl] at hev
            simp only [Except.ok.injEq, Prod.mk.injEq] at hev
            obtain ⟨h1, h2⟩ := hev
            subst h1
            subst h2
            simp only [noEmptyList, Bool.and_eq_true] at hne
            have hcs : sizeOf (v :: vs2) = 1 + sizeOf v + sizeOf vs2 := by
              simp [List.cons.sizeOf_spec]
            have hsv : sizeOf v < n := by omega
            have hsvs2 : sizeOf vs2 < n := by omega
            have ih1 := (IH (sizeOf v) hsv).1 v le_rfl d x t hv hne.1
            have ih2 := (IH (sizeOf vs2) hsvs2).2 vs2 le_rfl d xs2 trs2 hl hne.2
            simp [jsonList, ih1, ih2]

/-- C2 counterexample: evaluating `{"if": [false, 1]}` succeeds with value
None and the empty-object trace, but re-evaluating that trace `{}` as a rule
raises IndexError instead of producing the value None — so the trace is not
always a valid re-expression of the rule. -/
theorem trace_reevaluation_counterexample :
    jsonLogic (.dict [("if", .list [.bool false, .int 1])]) (.dict [])
      = .ok (Py.none, .dict []) ∧
    jsonLogic (.dict []) (.dict []) = .error .indexError := by
  constructor
  · simp [jsonLogic, jsonList, evalOperands, dispatch, opsContains, opsTable,
      if_, ifStep, truthy, defaultData]
  · simp [jsonLogic]

/-- C2 amended: whenever evaluation succeeds and the returned trace contains
no zero-key operation node (such nodes arise exactly when an `if` takes no
branch), re-evaluating the trace against the same data succeeds with the
same value — and indeed with the identical trace. -/
theorem trace_reevaluation (t d v tr : Py)
    (hev : jsonLogic t d = .ok (v, tr)) (hne : noEmptyNode tr = true) :
    jsonLogic tr d = .ok (v, tr) :=
  (trace_refix (sizeOf t)).1 t le_rfl d v tr hev hne

/-- Witness for the C2 amended theorem: `{"==": [1, {"var": "a"}]}` over
`{"a": 1}` evaluates to True with trace `{"==": [1, {"var": ["a"]}]}`, and
re-evaluating that trace yields the same value and trace. -/
theorem trace_reevaluation_witness :
    jsonLogic (.dict [("==", .list [.int 1, .dict [("var", .list [.str ("a")])]])])
        (.dict [("a", .int 1)])
      = .ok (.bool true,
          .dict [("==", .list [.int 1, .dict [("var", .list [.str ("a")])]])]) :=
  trace_reevaluation
    (.dict [("==", .list [.int 1, .dict [("var", .str ("a"))]])])
    (.dict [("a", .int 1)])
    (.bool true)
    (.dict [("==", .list [.int 1, .dict [("var", .list [.str ("a")])]])])
    (by
      simp [jsonLogic, jsonList, evalOperands, dispatch, applyOps, opsContains,
        opsTable, varOp, get_var, getVarCore, splitDot, splitDotAux, walkPath,
        subscript, lookupStr, caughtByGetVar, pyStr, defaultData, truthy,
        soft_equals, isStrType, isBoolType, pyEq, Except.map])
    (by simp [noEmptyNode, noEmptyList])

/-- C7: for every rule that is a primitive (not an operation node) and every
data context, evaluation returns the rule itself unchanged as both the value
and the trace. -/
theorem primitive_rules_pass_through (t d : Py)
    (h : isOperationNode t = false) : jsonLogic t d = .ok (t, t) := by
  cases t <;> simp_all [jsonLogic, isOperationNode]

/-- Witness for C7 at the concrete primitives `"gas"` and `[1, 2]` with a
nonempty data context. -/
theorem primitive_rules_pass_through_witness :
    jsonLogic (.str ("gas")) (.dict [("a", .int 1)]) = .ok (.str ("gas"), .str ("gas")) ∧
    jsonLogic (.list [.int 1, .int 2]) (.dict [("a", .int 1)])
      = .ok (.list [.int 1, .int 2], .list [.int 1, .int 2]) :=
  ⟨primitive_rules_pass_through _ _ rfl, primitive_rules_pass_through _ _ rfl⟩

/-- C8: evaluating an operation node with zero keys signals the IndexError
raised by `list(tests.keys())[0]`, an error kind distinct from the
unknown-variable and unrecognized-operator errors. -/
theorem empty_operation_node_error :
    (∀ d : Py, jsonLogic (.dict []) d = .error .indexError) ∧
    (∀ s : String, PyError.indexError ≠ PyError.unknownVariable s ∧
      PyError.indexError ≠ PyError.unrecognizedOperator s) := by
  refine ⟨fun d => by simp [jsonLogic], fun s => ⟨by simp, by simp⟩⟩

/-- Witness for C8 at a concrete data context and error payloads. -/
theorem empty_operation_node_error_witness :
    jsonLogic (.dict []) (.dict [("a", .int 1)]) = .error .indexError ∧
    PyError.indexError ≠ PyError.unknownVariable ("z") ∧
    PyError.indexError ≠ PyError.unrecognizedOperator ("bogus") :=
  ⟨empty_operation_node_error.1 _, (empty_operation_node_error.2 ("z")).1,
    (empty_operation_node_error.2 ("bogus")).2⟩

/-- C10: with an empty operand list, `and` evaluates to True and `or` to
False (the fold initials), for every data context. -/
theorem and_or_empty_operands (d : Py) :
    jsonLogic (.dict [("and", .list [])]) d
      = .ok (.bool true, .dict [("and", .list [])]) ∧
    jsonLogic (.dict [("or", .list [])]) d
      = .ok (.bool false, .dict [("or", .list [])]) := by
  constructor <;>
    simp [Except.map, jsonLogic, jsonList, evalOperands, dispatch, applyOps, opsContains,
      opsTable, pyAnd, pyOr]

/-- Witness for C10 at a concrete data context. -/
theorem and_or_empty_operands_witness :
    jsonLogic (.dict [("and", .list [])]) (.dict [("a", .int 1)])
      = .ok (.bool true, .dict [("and", .list [])]) ∧
    jsonLogic (.dict [("or", .list [])]) (.dict [("a", .int 1)])
      = .ok (.bool false, .dict [("or", .list [])]) :=
  and_or_empty_operands _

/-- C3 (code bug): comparing an int with the non-numeric string `"banana"`
under `<` raises an uncaught ValueError from `float("banana")` — the
`except TypeError` of `less` does not catch it — while a None operand,
whose conversion raises TypeError, does degrade to False. -/
theorem less_nonnumeric_string_raises :
    less (.int 1) (.str ("banana")) [] = .error .valueError ∧
    jsonLogic (.dict [("<", .list [.int 1, .str ("banana")])]) (.dict [])
      = .error .valueError ∧
    less (.int 1) Py.none [] = .ok false := by
  refine ⟨?_, ?_, ?_⟩
  · simp [less, isNumType, pyFloat, parseFloatStr, parseUnsignedFloat, digitsVal]
  · simp [Except.map, jsonLogic, jsonList, evalOperands, dispatch, applyOps, opsContains,
      opsTable, less, isNumType, pyFloat, parseFloatStr, parseUnsignedFloat,
      digitsVal]
  · simp [less, isNumType, pyFloat]

/-- C5 (code bug): a `var` lookup with an empty path raises
`ValueError("Unknown variable: ")` instead of returning the whole data
context, because `"".split(".")` yields `[""]` and the data has no key
`""`; a data context that does have the key `""` is looked up under it. -/
theorem var_empty_path_raises :
    jsonLogic (.dict [("var", .str (""))]) (.dict [("a", .int 1)])
      = .error (.unknownVariable ("")) ∧
    get_var (.dict [("a", .int 1)]) (.str ("")) Py.none
      = .error (.unknownVariable ("")) ∧
    jsonLogic (.dict [("var", .str (""))]) (.dict [("", .int 42)])
      = .ok (.int 42, .dict [("var", .list [.str ("")])]) := by
  refine ⟨?_, ?_, ?_⟩
  · simp [Except.map, jsonLogic, jsonList, evalOperands, dispatch, varOp, get_var,
      getVarCore, splitDot, splitDotAux, walkPath, subscript, lookupStr,
      parseIntStr, digitsVal, caughtByGetVar, pyStr, defaultData, truthy]
  · simp [get_var, getVarCore, splitDot, splitDotAux, walkPath, subscript,
      lookupStr, parseIntStr, digitsVal, caughtByGetVar, pyStr]
  · simp [Except.map, jsonLogic, jsonList, evalOperands, dispatch, varOp, get_var,
      getVarCore, splitDot, splitDotAux, walkPath, subscript, lookupStr,
      parseIntStr, digitsVal, caughtByGetVar, pyStr, defaultData, truthy]

/-- C4 counterexample: the int 1 and the float 1.0 are numeric with relative
difference 0, within tolerance (`almost_equal` holds), yet `===` returns
False because the `type(a) != type(b)` check precedes the tolerance check. -/
theorem hard_equals_int_float_counterexample :
    almost_equal (.int 1) (.float 1) = true ∧
    hard_equals (.int 1) (.float 1) = false ∧
    jsonLogic (.dict [("===", .list [.int 1, .float 1])]) (.dict [])
      = .ok (.bool false, .dict [("===", .list [.int 1, .float 1])]) := by
  refine ⟨?_, ?_, ?_⟩
  · simp only [almost_equal, numVal, isclose]
    norm_num [relTol]
  · simp [hard_equals, typeOf]
  · simp [Except.map, jsonLogic, jsonList, evalOperands, dispatch, applyOps, opsContains,
      opsTable, hard_equals, typeOf]

/-- C4 amended: for numeric operands of the same runtime kind, strict
equality holds exactly when the relative difference is within the 1e-9
tolerance (native equality is subsumed by the tolerance); for operands of
differing runtime kinds — including an int and a float — it is False. -/
theorem hard_equals_bool_iff (p q : Bool) (x y : Rat)
    (hx : (if p then (1 : Rat) else 0) = x)
    (hy : (if q then (1 : Rat) else 0) = y) :
    hard_equals (.bool p) (.bool q) = true ↔ |x - y| ≤ relTol * max |x| |y| := by
  have hp : pyEq (.bool p) (.bool q) = (p == q) := by simp [pyEq]
  subst hx
  subst hy
  cases p <;> cases q <;>
    simp [hard_equals, typeOf, hp, almost_equal, numVal, isclose, relTol]

theorem hard_equals_int_iff (n m : Int) :
    hard_equals (.int n) (.int m) = true ↔
      |(n : Rat) - (m : Rat)| ≤ relTol * max |(n : Rat)| |(m : Rat)| := by
  have hp : pyEq (.int n) (.int m) = (n == m) := by simp [pyEq]
  simp only [hard_equals, typeOf, ne_eq, not_true_eq_false, if_false, hp,
    almost_equal, numVal, isclose, Bool.or_eq_true, beq_iff_eq,
    decide_eq_true_eq]
  constructor
  · rintro (h | h)
    · subst h
      simpa using tol_nonneg (n : Rat) (n : Rat)
    · exact h
  · exact fun h => Or.inr h

theorem hard_equals_float_iff (x y : Rat) :
    hard_equals (.float x) (.float y) = true ↔
      |x - y| ≤ relTol * max |x| |y| := by
  have hp : pyEq (.float x) (.float y) = (x == y) := by simp [pyEq]
  simp only [hard_equals, typeOf, ne_eq, not_true_eq_false, if_false, hp,
    almost_equal, numVal, isclose, Bool.or_eq_true, beq_iff_eq,
    decide_eq_true_eq]
  constructor
  · rintro (h | h)
    · subst h
      simpa using tol_nonneg x x
    · exact h
  · exact fun h => Or.inr h

theorem hard_equals_same_kind_tolerance :
    (∀ (a b : Py) (x y : Rat), typeOf a = typeOf b →
      numVal a = some x → numVal b = some y →
      (hard_equals a b = true ↔ |x - y| ≤ relTol * max |x| |y|)) ∧
    (∀ a b : Py, typeOf a ≠ typeOf b → hard_equals a b = false) := by
  constructor
  · intro a b x y hty ha hb
    cases a <;> cases b <;> simp_all [typeOf, numVal]
    · exact hard_equals_bool_iff _ _ _ _ ha hb
    · subst ha
      subst hb
      exact hard_equals_int_iff _ _
    · exact hard_equals_float_iff _ _
  · intro a b h
    simp [hard_equals, h]

/-- C1: for an `if` rule whose operands evaluate to values `xs` with traces
`trs`, a truthy condition (the first one, at pair index `m`) makes
evaluation return the paired result value with just that operand
child-trace; and with no truthy condition and no trailing else (even operand
count) evaluation returns None with an empty-object trace. -/
theorem if_branch_selection (vs : List Py) (rest : List (String × Py))
    (d : Py) (xs trs : List Py)
    (hev : jsonList vs (defaultData d) = .ok (xs, trs)) :
    ((xs.length % 2 = 0 ∧
        ∀ k, 2 * k + 1 < xs.length →
          truthy (xs.getD (2 * k) Py.none) = false) →
      jsonLogic (.dict (("if", .list vs) :: rest)) d
        = .ok (Py.none, .dict [])) ∧
    (∀ m, 2 * m + 1 < xs.length → truthy (xs.getD (2 * m) Py.none) = true →
      (∀ j, j < m → truthy (xs.getD (2 * j) Py.none) = false) →
      jsonLogic (.dict (("if", .list vs) :: rest)) d
        = .ok (xs.getD (2 * m + 1) Py.none, trs.getD (2 * m + 1) Py.none)) := by
  have hoc : opsContains ("if") = true := by rfl
  have hunfold : jsonLogic (.dict (("if", .list vs) :: rest)) d
      = dispatch ("if") (defaultData d) xs trs := by
    simp only [jsonLogic, evalOperands, hev]
  constructor
  · rintro ⟨heven, hf⟩
    have hif : if_ xs = (Py.none, Option.none) :=
      ifStep_no_branch xs heven hf 0
    rw [hunfold]
    simp [dispatch, hoc, if_] at hif ⊢
    simp [hif]
  · intro m hm ht hj
    have hif : if_ xs = (xs.getD (2 * m + 1) Py.none, some (2 * m + 1)) := by
      have := ifStep_branch xs m hm ht hj 0
      simpa [if_] using this
    rw [hunfold]
    simp [dispatch, hoc, hif]

/-- Witness for C1: a chosen second pair collapses the trace to the chosen
literal branch, and a two-operand `if` with a falsy condition and no else
returns None with an empty trace. -/
theorem if_branch_selection_witness :
    jsonLogic
        (.dict [("if",
          .list [.bool false, .str ("no"), .bool true, .str ("yes")])])
        (.dict [])
      = .ok (.str ("yes"), .str ("yes")) ∧
    jsonLogic (.dict [("if", .list [.bool false, .str ("no")])]) (.dict [])
      = .ok (Py.none, .dict []) := by
  constructor
  · have hev : jsonList [.bool false, .str ("no"), .bool true, .str ("yes")]
        (defaultData (.dict []))
        = .ok ([.bool false, .str ("no"), .bool true, .str ("yes")],
          [.bool false, .str ("no"), .bool true, .str ("yes")]) := by
      simp [jsonList, jsonLogic, defaultData, truthy]
    have h := (if_branch_selection _ [] _ _ _ hev).2 1 (by norm_num)
      (by simp [truthy])
      (by
        intro j hj
        have hj0 : j = 0 := by omega
        subst hj0
        simp [truthy])
    simpa using h
  · have hev : jsonList [.bool false, .str ("no")] (defaultData (.dict []))
        = .ok ([.bool false, .str ("no")], [.bool false, .str ("no")]) := by
      simp [jsonList, jsonLogic, defaultData, truthy]
    have h := (if_branch_selection _ [] _ _ _ hev).1
      ⟨by norm_num, by
        intro k hk
        simp at hk
        have hk0 : k = 0 := by omega
        subst hk0
        simp [truthy]⟩
    simpa using h

/-- C6: `missing_some` returns `[]` at once when `min_required < 1`
(whatever the names operand is); otherwise it scans the names in order,
returns `[]` as soon as the found-count reaches the threshold — without
scanning the remaining names, which may even be ones whose lookup would
raise — and, when the whole scan stays below the threshold, returns exactly
the missing names in input order. -/
theorem missing_some_threshold (data minReq : Py) (r : Rat)
    (hm : numVal minReq = some r) :
    (r < 1 → ∀ names : Py,
      missing_some data [minReq, names] = .ok (.list [])) ∧
    (1 ≤ r → ∀ p s : List Py, lookupsOK data p = true →
      r ≤ (foundCount data p : Rat) →
      missing_some data [minReq, .list (p ++ s)] = .ok (.list [])) ∧
    (1 ≤ r → ∀ names : List Py, lookupsOK data names = true →
      (foundCount data names : Rat) < r →
      missing_some data [minReq, .list names]
        = .ok (.list (missingNames data names))) := by
  have hlt1 : pyLt minReq (.int 1) = .ok (decide (r < 1)) :=
    pyLt_num _ _ _ _ hm (by simp [numVal])
  refine ⟨?_, ?_, ?_⟩
  · intro h names
    simp [missing_some, hlt1, h]
  · intro h p s hok hge
    have hnot : ¬ r < 1 := not_lt.mpr h
    simp only [missing_some, hlt1, decide_eq_false hnot, pyIter]
    exact msLoop_reaches data minReq r hm p s 0 [] hok
      (by push_cast; simpa using hge) (by push_cast; linarith)
  · intro h names hok hlt
    have hnot : ¬ r < 1 := not_lt.mpr h
    simp only [missing_some, hlt1, decide_eq_false hnot, pyIter]
    have h2 := msLoop_completes data minReq r hm names 0 [] hok
      (by push_cast; simpa using hlt)
    simpa using h2

/-- Witness for C6 at the spec example (`min_required` 2, names
a/b/c, data with only `a`), at `min_required` 0 with a non-iterable names
operand (returned empty immediately), and at a satisfied threshold with a
trailing unscanned name. -/
theorem missing_some_threshold_witness :
    missing_some (.dict [("a", .str ("apple"))])
        [.int 2, .list [.str ("a"), .str ("b"), .str ("c")]]
      = .ok (.list [.str ("b"), .str ("c")]) ∧
    missing_some (.dict [("a", .str ("apple"))]) [.int 0, .int 99]
      = .ok (.list []) ∧
    missing_some (.dict [("a", .str ("apple"))])
        [.int 1, .list [.str ("a"), .str ("b")]]
      = .ok (.list []) := by
  refine ⟨?_, ?_, ?_⟩
  · have h := (missing_some_threshold (.dict [("a", .str ("apple"))])
      (.int 2) 2 (by simp [numVal])).2.2 (by norm_num)
      [.str ("a"), .str ("b"), .str ("c")] (by rfl) (by decide)
    simpa [missingNames] using h
  · exact (missing_some_threshold (.dict [("a", .str ("apple"))])
      (.int 0) 0 (by simp [numVal])).1 (by norm_num) (.int 99)
  · have h := (missing_some_threshold (.dict [("a", .str ("apple"))])
      (.int 1) 1 (by simp [numVal])).2.1 (by norm_num)
      [.str ("a")] [.str ("b")] (by rfl) (by decide)
    simpa using h

/-- Witness for the C4 amended theorem: two equal floats are strictly equal,
two floats just outside tolerance are not, and an int/string pair of
differing kinds compares False. -/
theorem hard_equals_same_kind_tolerance_witness :
    hard_equals (.float 1) (.float 1) = true ∧
    hard_equals (.int 1) (.str ("1")) = false :=
  ⟨(hard_equals_same_kind_tolerance.1 (.float 1) (.float 1) 1 1 rfl rfl
      rfl).mpr (by simpa using tol_nonneg (1 : Rat) 1),
    hard_equals_same_kind_tolerance.2 (.int 1) (.str ("1")) (by simp [typeOf])⟩

end JsonLogic
